import Mathlib

/-!
Verification of the pychecksumcache fingerprint cache and transform pipeline.

The development embeds `src/pychecksumcache/pychecksumcache.py` shallowly:
- `PurePosixPath` models the pathlib pure-path objects the code builds with
  `Path(...)` (purely syntactic: spurious separators and single-dot components
  are collapsed, nothing is resolved against a base directory);
- `Json` models the parsed content of the persisted cache file;
- the file system is a map from normalized path strings to file contents, with
  `none` standing for "absent or not a regular file" (`FileNotFoundError`);
- the digest primitive is a parameter `hash : String → String`, since the code
  only ever compares digests for equality;
- stateful methods thread an explicit `St`; `saveCount` counts the calls to
  `_save_cache` so that persistence frequency is observable.
-/

namespace PyChecksum

/-! ## Pure path model (pathlib.PurePosixPath) -/

structure PurePosixPath where
  root : String
  parts : List String
deriving DecidableEq, Repr

/-- Splitting a character list at every occurrence of a separator; the
result always has one more piece than there are separators, so the empty
list yields one empty piece. -/
def splitChar (sep : Char) : List Char → List (List Char)
  | [] => [[]]
  | c :: rest =>
    if c = sep then [] :: splitChar sep rest
    else
      match splitChar sep rest with
      | h :: t => (c :: h) :: t
      | [] => [[c]]

/-- Interleaving a separator between pieces (inverse of `splitChar` on
separator-free pieces). -/
def joinSep (sep : Char) : List (List Char) → List Char
  | [] => []
  | [x] => x
  | x :: y :: xs => x ++ sep :: joinSep sep (y :: xs)

/-- Parsing a string into a pure path, as the `Path(...)` constructor does:
split on the separator, drop empty and single-dot components, keep a root
marker for absolute paths (a double leading separator is preserved, three or
more collapse to one, following POSIX pathlib). -/
def PurePosixPath.parse (s : String) : PurePosixPath :=
  let cs := s.data
  { root :=
      match cs with
      | '/' :: '/' :: '/' :: _ => "/"
      | '/' :: '/' :: _ => "//"
      | '/' :: _ => "/"
      | _ => "",
    parts := ((splitChar '/' cs).filter (fun c => c != [] && c != ['.'])).map
               (fun l => String.mk l) }

/-- Rendering a pure path back to a string, as `str(path)` does. -/
def PurePosixPath.toStr (p : PurePosixPath) : String :=
  if p.root = "" && p.parts.isEmpty then "."
  else p.root ++ String.mk (joinSep '/' (p.parts.map String.data))

/-- The `name` property: the final component, or the empty string. -/
def PurePosixPath.name (p : PurePosixPath) : String :=
  p.parts.getLast?.getD ""

/-- The stem of a file name: the name up to (excluding) the last dot, provided
that dot is neither the first nor the last character — exactly the CPython
`PurePath.stem` rule. -/
def stemOf (n : String) : String :=
  let cs := n.toList
  match cs.reverse.findIdx? (fun c => c == '.') with
  | none => n
  | some j =>
    let i := cs.length - 1 - j
    if 0 < i ∧ 0 < j then (cs.take i).asString else n

/-- The `stem` property of a pure path. -/
def PurePosixPath.stem (p : PurePosixPath) : String :=
  stemOf p.name

/-- The `/` operator on pure paths: parse the right operand; if it is
absolute it replaces the left, otherwise its components are appended. -/
def PurePosixPath.join (p : PurePosixPath) (s : String) : PurePosixPath :=
  let q := PurePosixPath.parse s
  if q.root = "" then { root := p.root, parts := p.parts ++ q.parts } else q

/-! ## Path arguments

Every public method accepts `Union[str, Path]`; `Path(Path(p))` is `Path(p)`,
so a path argument is either a raw string (parsed on normalization) or an
already-built pure path (kept as is). -/

inductive PathArg where
  | str : String → PathArg
  | path : PurePosixPath → PathArg
deriving DecidableEq, Repr

/-- The `_normalize_path` method: builds `Path(file_path)`; the resolution
against `base_dir` is commented out in the source, so this is purely the
pathlib constructor. -/
def _normalize_path : PathArg → PurePosixPath
  | .str s => PurePosixPath.parse s
  | .path p => p

/-- The `_get_cache_key` method: `str(self._normalize_path(file_path))`. -/
def _get_cache_key (p : PathArg) : String :=
  (_normalize_path p).toStr

/-! ## File system model -/

/-- A file system: normalized path string to file content; `none` models
"does not exist or is not a regular file". -/
def FS : Type := String → Option String

/-- Writing (creating or overwriting) a regular file. -/
def FS.write (fs : FS) (k v : String) : FS :=
  fun q => if q = k then some v else fs q

/-- Deleting a file. -/
def FS.eraseFile (fs : FS) (k : String) : FS :=
  fun q => if q = k then none else fs q

/-! ## Persisted cache file (JSON) model -/

inductive Json where
  | str : String → Json
  | num : Int → Json
  | obj : List (String × Json) → Json

/-- Reading a JSON object whose values must all be strings, as loading the
checksum map does; any other shape fails. -/
def decodeEntries : List (String × Json) → Option (List (String × String))
  | [] => some []
  | (k, .str v) :: rest => (decodeEntries rest).map (fun m => (k, v) :: m)
  | (_, .num _) :: _ => none
  | (_, .obj _) :: _ => none

def decodeChecksums : Json → Option (List (String × String))
  | .obj l => decodeEntries l
  | _ => none

/-- Serializing the checksum map, as `json.dump(self.checksums, ...)` does. -/
def dumpChecksums (m : List (String × String)) : Json :=
  .obj (m.map (fun kv => (kv.1, Json.str kv.2)))

/-- The `_load_cache` method: a missing or malformed cache file yields the
empty map, never an error. -/
def _load_cache (disk : Option Json) : List (String × String) :=
  match disk with
  | none => []
  | some j => (decodeChecksums j).getD []

/-! ## Checksum map (insertion-ordered dict) -/

def lookupA (k : String) : List (String × String) → Option String
  | [] => none
  | (k1, v) :: rest => if k1 = k then some v else lookupA k rest

/-- Dict assignment: replace in place when the key is present, append
otherwise (insertion order preserved, as a Python dict does). -/
def insertA (k v : String) : List (String × String) → List (String × String)
  | [] => [(k, v)]
  | (k1, v1) :: rest =>
    if k1 = k then (k, v) :: rest else (k1, v1) :: insertA k v rest

/-- Dict deletion of one key. -/
def eraseA (k : String) : List (String × String) → List (String × String)
  | [] => []
  | (k1, v1) :: rest => if k1 = k then rest else (k1, v1) :: eraseA k rest

def keysA (m : List (String × String)) : List String :=
  m.map Prod.fst

/-! ## Store state -/

/-- The observable state of a `PyChecksumCache` together with its world: the
in-memory map, the file system, the content of the persisted cache file
(`none` = absent), and a count of `_save_cache` invocations. -/
structure St where
  checksums : List (String × String)
  fs : FS
  cacheDisk : Option Json
  saveCount : Nat

/-- The `_save_cache` method: serialize the current map to the cache file. -/
def _save_cache (st : St) : St :=
  { st with cacheDisk := some (dumpChecksums st.checksums),
            saveCount := st.saveCount + 1 }

/-- Store construction (`__init__`): load the map from the cache file if it
exists, else start empty. -/
def mkStore (fs : FS) (cacheDisk : Option Json) : St :=
  { checksums := _load_cache cacheDisk, fs := fs,
    cacheDisk := cacheDisk, saveCount := 0 }

/-- The `calculate_md5` method: digest of the file content at the normalized
path, `none` modelling the `FileNotFoundError` raised when the path is not an
existing regular file. -/
def calculate_md5 (hash : String → String) (fs : FS) (p : PathArg) : Option String :=
  (fs (_get_cache_key p)).map hash

/-- The `has_changed` method: compute the digest; on a new or different
digest record it and persist, returning true; on an equal digest return false
with no mutation; on `FileNotFoundError` drop any stale entry (persisting
only if one was dropped) and return false. -/
def has_changed (hash : String → String) (st : St) (p : PathArg) : Bool × St :=
  let key := _get_cache_key p
  match calculate_md5 hash st.fs p with
  | some cur =>
    match lookupA key st.checksums with
    | none => (true, _save_cache { st with checksums := insertA key cur st.checksums })
    | some prev =>
      if cur ≠ prev then
        (true, _save_cache { st with checksums := insertA key cur st.checksums })
      else
        (false, st)
  | none =>
    if (lookupA key st.checksums).isSome then
      (false, _save_cache { st with checksums := eraseA key st.checksums })
    else
      (false, st)

/-- The `any_changed` method: `any(self.has_changed(f) for f in file_list)`,
short-circuiting at the first change (later files are then not checked). -/
def any_changed (hash : String → String) (st : St) : List PathArg → Bool × St
  | [] => (false, st)
  | p :: rest =>
    let r := has_changed hash st p
    if r.1 then (true, r.2) else any_changed hash r.2 rest

/-- One step of `refresh_cache(None)`: recompute the digest for a key of the
map (`self.checksums[path] = self.calculate_md5(path)`), deleting the entry
when the file has disappeared. -/
def refresh_step (hash : String → String) (fs : FS)
    (cs : List (String × String)) (path : String) : List (String × String) :=
  match (fs (PurePosixPath.parse path).toStr).map hash with
  | some d => insertA path d cs
  | none => eraseA path cs

/-- The `refresh_cache` method: one path, or every key of the map when none
is given; a single `_save_cache` at the end either way. -/
def refresh_cache (hash : String → String) (st : St) (p : Option PathArg) : St :=
  match p with
  | none =>
    let ks := keysA st.checksums
    _save_cache { st with checksums := ks.foldl (refresh_step hash st.fs) st.checksums }
  | some fp =>
    let key := _get_cache_key fp
    let cs :=
      match calculate_md5 hash st.fs fp with
      | some d => insertA key d st.checksums
      | none => eraseA key st.checksums
    _save_cache { st with checksums := cs }

/-! ## Transform pipeline (per-file mode)

A transform callable receives the two path strings and acts on the file
system; `none` models the callable raising, which the pipeline does not
catch. -/

/-- The output file name policy of `transform`: a supplied extension that
begins with a dot replaces the input extension (`stem + ext`), any other
non-empty extension is appended to the full name, and no extension keeps the
input name. -/
def output_filename (input_path : PurePosixPath) (output_extension : String) : String :=
  if output_extension ≠ "" then
    match output_extension.data with
    | '.' :: _ => input_path.stem ++ output_extension
    | _ => input_path.name ++ output_extension
  else input_path.name

/-- The default single-file transform, `shutil.copy2`: a byte-for-byte copy,
raising when the source is absent. -/
def copy2 (src dst : String) (fs : FS) : Option FS :=
  (fs src).map (fun c => fs.write dst c)

/-- The loop body of `transform`: for each input, derive the output path,
decide `force or self.has_changed(input_path)` (short-circuit: with
`force=True` the check never runs), invoke the callable when needed, and
append `(output_file, needs_processing)`; a raise from the callable aborts
the batch with the state at that point. -/
def transformGo (hash : String → String) (tf : String → String → FS → Option FS)
    (output_path : PurePosixPath) (output_extension : String) (force : Bool) :
    List PathArg → St → List (PurePosixPath × Bool) →
    Except St (List (PurePosixPath × Bool) × St)
  | [], st, acc => .ok (acc.reverse, st)
  | f :: rest, st, acc =>
    let input_path := _normalize_path f
    let output_file := output_path.join (output_filename input_path output_extension)
    let r := if force then (true, st) else has_changed hash st (.path input_path)
    if r.1 then
      match tf input_path.toStr output_file.toStr r.2.fs with
      | some fs1 =>
        transformGo hash tf output_path output_extension force rest
          { r.2 with fs := fs1 } ((output_file, true) :: acc)
      | none => .error r.2
    else
      transformGo hash tf output_path output_extension force rest r.2
        ((output_file, false) :: acc)

/-- The `transform` method in per-file mode (the directory creation for the
output folder affects no regular file, so it is invisible here). -/
def transform (hash : String → String) (tf : String → String → FS → Option FS)
    (st : St) (input_files : List PathArg) (output_folder : PathArg)
    (output_extension : String) (force : Bool) :
    Except St (List (PurePosixPath × Bool) × St) :=
  transformGo hash tf (_normalize_path output_folder) output_extension force
    input_files st []

/-! ## Transform pipeline (aggregate mode)

The aggregate branch of `transform` (the `aggregate_output_file` and
`transform_func_aggregate` parameters) is exercised by the repository's
tests but its body is not among the provided sources, so it is modelled from
the spec below. -/

/-- Change detection over the full input list: `has_changed` is evaluated on
every input (so every input's digest is recorded), and the results are
or-ed. The spec's aggregate rerun scenario — a rerun with unchanged inputs
and existing output reports false — requires this full evaluation: a
short-circuit would leave later inputs unrecorded on the first run. -/
def has_changed_full (hash : String → String) (st : St) :
    List PathArg → Bool × St
  | [] => (false, st)
  | p :: rest =>
    let r := has_changed hash st p
    let r2 := has_changed_full hash r.2 rest
    (r.1 || r2.1, r2.2)

/-- Modelled from the spec: the default aggregate transform, used when no
`transform_func_aggregate` is supplied, concatenates all input file contents
in order into the output file. -/
def default_aggregate_transform (inputs : List String) (out : String) (fs : FS) : FS :=
  fs.write out (String.join (inputs.map (fun p => (fs p).getD "")))

/-- Modelled from the spec: the aggregate branch of `transform` and
`transform_async`, absent from the provided sources. The decision to run is
`force=true`, OR any change over the full input list, OR the aggregate
output file does not yet exist on disk; when triggered the aggregate
callable is invoked once with the full input list; the result is always a
single-element outcome list. The third component counts callable
invocations. -/
def transform_aggregate (hash : String → String)
    (tfAgg : List String → String → FS → FS) (st : St)
    (input_files : List PathArg) (aggregate_output_file : PathArg)
    (force : Bool) : List (PurePosixPath × Bool) × St × Nat :=
  let outPath := _normalize_path aggregate_output_file
  let d :=
    if force then (true, st)
    else
      let r := has_changed_full hash st input_files
      if r.1 then (true, r.2) else ((r.2.fs outPath.toStr).isNone, r.2)
  if d.1 then
    let fs1 := tfAgg (input_files.map (fun p => (_normalize_path p).toStr))
                 outPath.toStr d.2.fs
    ([(outPath, true)], { d.2 with fs := fs1 }, 1)
  else
    ([(outPath, false)], d.2, 0)

/-! ## Association-list lemmas -/

theorem lookupA_insertA_self (k v : String) (m : List (String × String)) :
    lookupA k (insertA k v m) = some v := by
  induction m with
  | nil => simp [insertA, lookupA]
  | cons hd tl ih =>
    obtain ⟨k1, v1⟩ := hd
    by_cases h : k1 = k
    · simp [insertA, h, lookupA]
    · simp [insertA, h, lookupA, ih]

theorem lookupA_insertA_ne (k1 k v : String) (m : List (String × String))
    (h : k1 ≠ k) : lookupA k (insertA k1 v m) = lookupA k m := by
  induction m with
  | nil => simp [insertA, lookupA, h]
  | cons hd tl ih =>
    obtain ⟨k2, v2⟩ := hd
    simp only [insertA]
    by_cases h2 : k2 = k1
    · subst h2
      rw [if_pos rfl]
      simp [lookupA, h]
    · rw [if_neg h2]
      simp only [lookupA]
      by_cases h3 : k2 = k
      · simp [h3]
      · simp [h3, ih]

theorem lookupA_eraseA_ne (k1 k : String) (m : List (String × String))
    (h : k1 ≠ k) : lookupA k (eraseA k1 m) = lookupA k m := by
  induction m with
  | nil => simp [eraseA, lookupA]
  | cons hd tl ih =>
    obtain ⟨k2, v2⟩ := hd
    simp only [eraseA]
    by_cases h2 : k2 = k1
    · subst h2
      rw [if_pos rfl]
      simp [lookupA, h]
    · rw [if_neg h2]
      simp only [lookupA]
      by_cases h3 : k2 = k
      · simp [h3]
      · simp [h3, ih]

theorem lookupA_eq_none_iff (k : String) (m : List (String × String)) :
    lookupA k m = none ↔ k ∉ keysA m := by
  induction m with
  | nil => simp [lookupA, keysA]
  | cons hd tl ih =>
    obtain ⟨k1, v1⟩ := hd
    simp only [lookupA, keysA, List.map_cons, List.mem_cons]
    by_cases h : k1 = k
    · simp [h]
    · rw [if_neg h]
      rw [show (lookupA k tl = none ↔ k ∉ keysA tl) from ih]
      simp [keysA, not_or, Ne.symm h]

theorem lookupA_eraseA_self (k : String) (m : List (String × String))
    (hnd : (keysA m).Nodup) : lookupA k (eraseA k m) = none := by
  induction m with
  | nil => simp [eraseA, lookupA]
  | cons hd tl ih =>
    obtain ⟨k1, v1⟩ := hd
    simp only [keysA, List.map_cons, List.nodup_cons] at hnd
    simp only [eraseA]
    by_cases h : k1 = k
    · subst h
      rw [if_pos rfl]
      exact (lookupA_eq_none_iff k1 tl).mpr hnd.1
    · rw [if_neg h]
      simp only [lookupA, if_neg h]
      exact ih hnd.2

theorem eraseA_of_lookupA_none (k : String) (m : List (String × String))
    (h : lookupA k m = none) : eraseA k m = m := by
  induction m with
  | nil => simp [eraseA]
  | cons hd tl ih =>
    obtain ⟨k1, v1⟩ := hd
    by_cases h1 : k1 = k
    · simp [lookupA, h1] at h
    · simp only [lookupA, if_neg h1] at h
      simp [eraseA, h1, ih h]

theorem mem_keysA_insertA (x k v : String) (m : List (String × String)) :
    x ∈ keysA (insertA k v m) → x = k ∨ x ∈ keysA m := by
  induction m with
  | nil => simp [insertA, keysA]
  | cons hd tl ih =>
    obtain ⟨k1, v1⟩ := hd
    by_cases h : k1 = k
    · simp only [insertA, if_pos h, keysA, List.map_cons, List.mem_cons]
      tauto
    · simp only [insertA, if_neg h, keysA, List.map_cons, List.mem_cons]
      intro hx
      rcases hx with hx | hx
      · right; left; exact hx
      · rcases ih hx with hx | hx
        · left; exact hx
        · right; right; exact hx

theorem nodup_keysA_insertA (k v : String) (m : List (String × String))
    (hnd : (keysA m).Nodup) : (keysA (insertA k v m)).Nodup := by
  induction m with
  | nil => simp [insertA, keysA]
  | cons hd tl ih =>
    obtain ⟨k1, v1⟩ := hd
    simp only [keysA, List.map_cons, List.nodup_cons] at hnd
    simp only [insertA]
    by_cases h : k1 = k
    · subst h
      rw [if_pos rfl]
      simp only [keysA, List.map_cons, List.nodup_cons]
      exact hnd
    · rw [if_neg h]
      simp only [keysA, List.map_cons, List.nodup_cons]
      refine ⟨fun hx => ?_, ih hnd.2⟩
      rcases mem_keysA_insertA k1 k v tl hx with h1 | h1
      · exact h h1
      · exact hnd.1 h1

theorem keysA_eraseA_sublist (k : String) (m : List (String × String)) :
    (keysA (eraseA k m)).Sublist (keysA m) := by
  induction m with
  | nil => simp [eraseA]
  | cons hd tl ih =>
    obtain ⟨k1, v1⟩ := hd
    simp only [eraseA]
    by_cases h : k1 = k
    · rw [if_pos h]
      exact List.sublist_cons_self _ _
    · rw [if_neg h]
      simp only [keysA, List.map_cons]
      exact ih.cons₂ k1

theorem nodup_keysA_eraseA (k : String) (m : List (String × String))
    (hnd : (keysA m).Nodup) : (keysA (eraseA k m)).Nodup :=
  hnd.sublist (keysA_eraseA_sublist k m)

/-! ## Cache file round trip -/

theorem decodeEntries_dump (m : List (String × String)) :
    decodeEntries (m.map (fun kv => (kv.1, Json.str kv.2))) = some m := by
  induction m with
  | nil => rfl
  | cons hd tl ih =>
    obtain ⟨k, v⟩ := hd
    simp [decodeEntries, ih]

theorem load_dump (m : List (String × String)) :
    _load_cache (some (dumpChecksums m)) = m := by
  simp [_load_cache, dumpChecksums, decodeChecksums, decodeEntries_dump]

/-! ## State-preservation lemmas -/

theorem has_changed_fs (hash : String → String) (st : St) (p : PathArg) :
    (has_changed hash st p).2.fs = st.fs := by
  unfold has_changed
  simp only
  split
  · split
    · simp [_save_cache]
    · split <;> simp [_save_cache]
  · split <;> simp [_save_cache]

theorem has_changed_full_fs (hash : String → String) (st : St)
    (l : List PathArg) : (has_changed_full hash st l).2.fs = st.fs := by
  induction l generalizing st with
  | nil => rfl
  | cons p rest ih =>
    simp only [has_changed_full]
    rw [ih, has_changed_fs]

/-! ## Case analysis of has_changed -/

theorem has_changed_new_or_diff (hash : String → String) (st : St) (p : PathArg)
    (c : String) (hfs : st.fs (_get_cache_key p) = some c)
    (hch : lookupA (_get_cache_key p) st.checksums ≠ some (hash c)) :
    has_changed hash st p =
      (true, _save_cache
        { st with checksums := insertA (_get_cache_key p) (hash c) st.checksums }) := by
  unfold has_changed calculate_md5
  rw [hfs]
  cases hl : lookupA (_get_cache_key p) st.checksums with
  | none => simp [hl]
  | some prev =>
    have hne : hash c ≠ prev := fun e => hch (by rw [hl, e])
    simp [hl, hne]

theorem has_changed_same (hash : String → String) (st : St) (p : PathArg)
    (c : String) (hfs : st.fs (_get_cache_key p) = some c)
    (hl : lookupA (_get_cache_key p) st.checksums = some (hash c)) :
    has_changed hash st p = (false, st) := by
  unfold has_changed calculate_md5
  rw [hfs]
  simp [hl]

theorem has_changed_missing (hash : String → String) (st : St) (p : PathArg)
    (hfs : st.fs (_get_cache_key p) = none) :
    has_changed hash st p =
      (false,
        if (lookupA (_get_cache_key p) st.checksums).isSome then
          _save_cache { st with checksums := eraseA (_get_cache_key p) st.checksums }
        else st) := by
  unfold has_changed calculate_md5
  rw [hfs]
  by_cases hcond : (lookupA (_get_cache_key p) st.checksums).isSome <;>
    simp [hcond]

/-! ## Refresh fold lemmas -/

theorem lookupA_refresh_step_self (hash : String → String) (fs : FS)
    (cs : List (String × String)) (k : String) (hnd : (keysA cs).Nodup) :
    lookupA k (refresh_step hash fs cs k) =
      (fs (PurePosixPath.parse k).toStr).map hash := by
  unfold refresh_step
  cases hv : fs (PurePosixPath.parse k).toStr with
  | none => simp [hv, lookupA_eraseA_self k cs hnd]
  | some c => simp [hv, lookupA_insertA_self]

theorem lookupA_refresh_step_ne (hash : String → String) (fs : FS)
    (cs : List (String × String)) (k1 k : String) (h : k1 ≠ k) :
    lookupA k (refresh_step hash fs cs k1) = lookupA k cs := by
  unfold refresh_step
  cases hv : fs (PurePosixPath.parse k1).toStr with
  | none => simp [hv, lookupA_eraseA_ne k1 k cs h]
  | some c => simp [hv, lookupA_insertA_ne k1 k (hash c) cs h]

theorem nodup_refresh_step (hash : String → String) (fs : FS)
    (cs : List (String × String)) (k : String) (hnd : (keysA cs).Nodup) :
    (keysA (refresh_step hash fs cs k)).Nodup := by
  unfold refresh_step
  cases hv : fs (PurePosixPath.parse k).toStr with
  | none => simpa using nodup_keysA_eraseA k cs hnd
  | some c => simpa using nodup_keysA_insertA k (hash c) cs hnd

theorem lookupA_foldl_refresh_not_mem (hash : String → String) (fs : FS)
    (ks : List String) (cs : List (String × String)) (k : String) (h : k ∉ ks) :
    lookupA k (ks.foldl (refresh_step hash fs) cs) = lookupA k cs := by
  induction ks generalizing cs with
  | nil => rfl
  | cons k1 rest ih =>
    simp only [List.foldl_cons]
    have h1 : k1 ≠ k := fun e => h (by simp [e])
    rw [ih _ (fun hm => h (List.mem_cons_of_mem _ hm)),
        lookupA_refresh_step_ne hash fs cs k1 k h1]

theorem lookupA_foldl_refresh_mem (hash : String → String) (fs : FS)
    (ks : List String) (cs : List (String × String)) (k : String) :
    (keysA cs).Nodup → ks.Nodup → k ∈ ks →
    lookupA k (ks.foldl (refresh_step hash fs) cs) =
      (fs (PurePosixPath.parse k).toStr).map hash := by
  induction ks generalizing cs with
  | nil => exact fun _ _ hk => absurd hk (List.not_mem_nil k)
  | cons k1 rest ih =>
    intro hndc hndk hk
    simp only [List.foldl_cons]
    rcases List.mem_cons.mp hk with he | hm
    · subst he
      rw [lookupA_foldl_refresh_not_mem hash fs rest _ k (List.nodup_cons.mp hndk).1,
          lookupA_refresh_step_self hash fs cs k hndc]
    · exact ih _ (nodup_refresh_step hash fs cs k1 hndc)
        (List.nodup_cons.mp hndk).2 hm

/-! ## Forced-transform lemma -/

theorem transformGo_force (hash : String → String)
    (tf : String → String → FS → Option FS) (outP : PurePosixPath) (ext : String)
    (htf : ∀ a b fs, (tf a b fs).isSome = true) :
    ∀ (l : List PathArg) (st : St) (acc : List (PurePosixPath × Bool)),
      ∃ st1, transformGo hash tf outP ext true l st acc =
          .ok (acc.reverse ++
            l.map (fun f => (outP.join (output_filename (_normalize_path f) ext), true)),
            st1) ∧
        st1.checksums = st.checksums ∧ st1.cacheDisk = st.cacheDisk ∧
        st1.saveCount = st.saveCount := by
  intro l
  induction l with
  | nil =>
    intro st acc
    exact ⟨st, by simp [transformGo], rfl, rfl, rfl⟩
  | cons f rest ih =>
    intro st acc
    obtain ⟨fs1, hfs1⟩ : ∃ fs1,
        tf (_normalize_path f).toStr
          (outP.join (output_filename (_normalize_path f) ext)).toStr st.fs = some fs1 := by
      have := htf (_normalize_path f).toStr
        (outP.join (output_filename (_normalize_path f) ext)).toStr st.fs
      exact Option.isSome_iff_exists.mp this
    obtain ⟨st1, heq, hcs, hcd, hsc⟩ :=
      ih { st with fs := fs1 }
        ((outP.join (output_filename (_normalize_path f) ext), true) :: acc)
    refine ⟨st1, ?_, hcs, hcd, hsc⟩
    simp only [transformGo, if_true, hfs1, heq]
    simp

/-- Concrete file system used by several witnesses: one file "a.txt" with
content "x". -/
def exFs : FS := fun q => if q = "a.txt" then some "x" else none

/-- A store freshly constructed over `exFs` with no cache file. -/
def exSt : St := mkStore exFs none

/-! ## Claims C3, C4, C5, C8 -/

/-- C3: over a store constructed with an absent cache file, the first
`has_changed` on an existing regular file returns true, and a second call
immediately after, with the file bytes unchanged, returns false. -/
theorem claim_C3 (hash : String → String) (fs : FS) (p : PathArg) (c : String)
    (h : fs (_get_cache_key p) = some c) :
    (has_changed hash (mkStore fs none) p).1 = true ∧
    (has_changed hash (has_changed hash (mkStore fs none) p).2 p).1 = false := by
  have h1 := has_changed_new_or_diff hash (mkStore fs none) p c h
    (by simp [mkStore, _load_cache, lookupA])
  refine ⟨by rw [h1], ?_⟩
  rw [h1]
  rw [has_changed_same hash _ p c h (lookupA_insertA_self _ _ _)]

/-- Witness for C3 at a concrete file system. -/
theorem claim_C3_witness :
    exFs (_get_cache_key (.str "a.txt")) = some "x" ∧
    ((has_changed id (mkStore exFs none) (.str "a.txt")).1 = true ∧
     (has_changed id (has_changed id (mkStore exFs none) (.str "a.txt")).2
        (.str "a.txt")).1 = false) :=
  ⟨by decide, claim_C3 id exFs (.str "a.txt") "x" (by decide)⟩

/-- C4: on a path that is not an existing regular file, `has_changed`
returns false (no error escapes), leaves the map equal to the old map with
the path's entry erased, and saves the cache exactly when an entry was
actually removed. -/
theorem claim_C4 (hash : String → String) (st : St) (p : PathArg)
    (h : st.fs (_get_cache_key p) = none) :
    (has_changed hash st p).1 = false ∧
    (has_changed hash st p).2.checksums = eraseA (_get_cache_key p) st.checksums ∧
    (has_changed hash st p).2 =
      (if (lookupA (_get_cache_key p) st.checksums).isSome then
        _save_cache { st with checksums := eraseA (_get_cache_key p) st.checksums }
      else st) := by
  rw [has_changed_missing hash st p h]
  refine ⟨rfl, ?_, rfl⟩
  by_cases hc : (lookupA (_get_cache_key p) st.checksums).isSome
  · simp [hc, _save_cache]
  · simp only [hc, if_false, Bool.false_eq_true, if_neg]
    rw [eraseA_of_lookupA_none _ _ (Option.not_isSome_iff_eq_none.mp hc)]

/-- A store with one stale entry for a file that no longer exists. -/
def c4St : St :=
  { checksums := [("gone.txt", "z")], fs := exFs, cacheDisk := none, saveCount := 0 }

/-- Witness for C4 at a concrete stale entry. -/
theorem claim_C4_witness :
    c4St.fs (_get_cache_key (.str "gone.txt")) = none ∧
    ((has_changed id c4St (.str "gone.txt")).1 = false ∧
     (has_changed id c4St (.str "gone.txt")).2.checksums =
       eraseA (_get_cache_key (.str "gone.txt")) c4St.checksums ∧
     (has_changed id c4St (.str "gone.txt")).2 =
       (if (lookupA (_get_cache_key (.str "gone.txt")) c4St.checksums).isSome then
         _save_cache
           { c4St with checksums := eraseA (_get_cache_key (.str "gone.txt")) c4St.checksums }
       else c4St)) :=
  ⟨by decide, claim_C4 id c4St (.str "gone.txt") (by decide)⟩

/-- C5: when the current digest equals the stored digest, `has_changed`
returns false and the state — map, cache file and save count — is exactly
the state before the call. -/
theorem claim_C5 (hash : String → String) (st : St) (p : PathArg) (c : String)
    (hfs : st.fs (_get_cache_key p) = some c)
    (hl : lookupA (_get_cache_key p) st.checksums = some (hash c)) :
    has_changed hash st p = (false, st) :=
  has_changed_same hash st p c hfs hl

/-- A store whose entry for "a.txt" already matches the file content. -/
def c5St : St :=
  { checksums := [("a.txt", "x")], fs := exFs, cacheDisk := none, saveCount := 0 }

/-- Witness for C5 at a concrete up-to-date entry. -/
theorem claim_C5_witness :
    c5St.fs (_get_cache_key (.str "a.txt")) = some "x" ∧
    lookupA (_get_cache_key (.str "a.txt")) c5St.checksums = some (id "x") ∧
    has_changed id c5St (.str "a.txt") = (false, c5St) :=
  ⟨by decide, by decide, claim_C5 id c5St (.str "a.txt") "x" (by decide) (by decide)⟩

/-- C8: saving any map to the cache file and constructing a new store bound
to that cache file yields exactly the map that was written. -/
theorem claim_C8 (st : St) (fs1 : FS) :
    (mkStore fs1 (_save_cache st).cacheDisk).checksums = st.checksums := by
  show _load_cache (some (dumpChecksums st.checksums)) = st.checksums
  exact load_dump st.checksums

/-! ## Claim C7 -/

/-- C7: `refresh_cache` with no path recomputes and stores the digest of
every key of the map (removing the keys whose file has disappeared, since a
missing file maps to `none`), adds no other key, and performs exactly one
cache-file write, at the end, of the final map. -/
theorem claim_C7 (hash : String → String) (st : St)
    (hnd : (keysA st.checksums).Nodup) :
    (∀ k ∈ keysA st.checksums,
        lookupA k (refresh_cache hash st none).checksums =
          (st.fs (PurePosixPath.parse k).toStr).map hash) ∧
    (∀ k, k ∉ keysA st.checksums →
        lookupA k (refresh_cache hash st none).checksums = none) ∧
    (refresh_cache hash st none).saveCount = st.saveCount + 1 ∧
    (refresh_cache hash st none).cacheDisk =
      some (dumpChecksums (refresh_cache hash st none).checksums) := by
  refine ⟨?_, ?_, rfl, rfl⟩
  · intro k hk
    exact lookupA_foldl_refresh_mem hash st.fs (keysA st.checksums)
      st.checksums k hnd hnd hk
  · intro k hk
    show lookupA k ((keysA st.checksums).foldl (refresh_step hash st.fs) st.checksums) = none
    rw [lookupA_foldl_refresh_not_mem hash st.fs (keysA st.checksums) st.checksums k hk]
    exact (lookupA_eq_none_iff k st.checksums).mpr hk

/-- A store tracking one live file and one vanished file. -/
def c7St : St :=
  { checksums := [("a.txt", "old"), ("gone.txt", "z")], fs := exFs,
    cacheDisk := none, saveCount := 0 }

/-- Witness for C7: the live entry is recomputed, the vanished entry is
dropped, and exactly one save happens. -/
theorem claim_C7_witness :
    (keysA c7St.checksums).Nodup ∧
    lookupA "a.txt" (refresh_cache id c7St none).checksums = some "x" ∧
    lookupA "gone.txt" (refresh_cache id c7St none).checksums = none ∧
    (refresh_cache id c7St none).saveCount = c7St.saveCount + 1 :=
  ⟨by decide,
   ((claim_C7 id c7St (by decide)).1 "a.txt" (by decide)).trans (by decide),
   ((claim_C7 id c7St (by decide)).1 "gone.txt" (by decide)).trans (by decide),
   (claim_C7 id c7St (by decide)).2.2.1⟩

/-! ## Claim C6 -/

/-- C6: the output path of a per-file transform is the output folder joined
with the computed name — for input "a.txt": extension ".out" gives "a.out"
(a dot-led extension replaces the input extension), "out" gives "a.txtout"
(appended to the full name), and the empty extension keeps "a.txt". -/
theorem claim_C6 :
    (∀ (hash : String → String) (st : St) (f folder : PathArg) (ext : String),
       transform hash (fun _ _ fs => some fs) st [f] folder ext true =
         .ok ([((_normalize_path folder).join
                  (output_filename (_normalize_path f) ext), true)], st)) ∧
    (transform id (fun _ _ fs => some fs) exSt [.str "a.txt"] (.str "out")
        ".out" true).toOption.map (fun r => r.1.map (fun e => (e.1.toStr, e.2))) =
      some [("out/a.out", true)] ∧
    (transform id (fun _ _ fs => some fs) exSt [.str "a.txt"] (.str "out")
        "out" true).toOption.map (fun r => r.1.map (fun e => (e.1.toStr, e.2))) =
      some [("out/a.txtout", true)] ∧
    (transform id (fun _ _ fs => some fs) exSt [.str "a.txt"] (.str "out")
        "" true).toOption.map (fun r => r.1.map (fun e => (e.1.toStr, e.2))) =
      some [("out/a.txt", true)] := by
  refine ⟨?_, by decide, by decide, by decide⟩
  intro hash st f folder ext
  simp [transform, transformGo]

/-! ## Claim C2 (corrected) -/

/-- C2 counterexample: a forced transform over a fresh store processes the
input (was_processed = true) yet records no digest for it — the stored
digest for "a.txt" is still absent after the call, because
`force or self.has_changed(...)` short-circuits past the check. -/
theorem claim_C2_counterexample :
    (transform id (fun _ _ fs => some fs) exSt [.str "a.txt"] (.str "out")
        "" true).toOption.map
      (fun r => (r.1.map Prod.snd, lookupA "a.txt" r.2.checksums)) =
      some ([true], none) := by
  decide

/-- C2 as amended: with force=true every input is processed regardless of
checksum state, but the change check never runs, so the fingerprint map,
the persisted cache file and the save count are all left untouched. -/
theorem claim_C2 (hash : String → String)
    (tf : String → String → FS → Option FS) (st : St) (inputs : List PathArg)
    (folder : PathArg) (ext : String)
    (htf : ∀ a b fs, (tf a b fs).isSome = true) :
    ∃ res st1,
      transform hash tf st inputs folder ext true = .ok (res, st1) ∧
      res.map Prod.snd = inputs.map (fun _ => true) ∧
      st1.checksums = st.checksums ∧ st1.cacheDisk = st.cacheDisk ∧
      st1.saveCount = st.saveCount := by
  obtain ⟨st1, heq, hcs, hcd, hsc⟩ :=
    transformGo_force hash tf (_normalize_path folder) ext htf inputs st []
  refine ⟨_, st1, heq, ?_, hcs, hcd, hsc⟩
  clear heq
  induction inputs with
  | nil => rfl
  | cons a l ih => simpa using ih

/-- Witness for C2 (amended) with a callable that always succeeds. -/
theorem claim_C2_witness :
    (∀ (a b : String) (fs : FS), ((fun _ _ fs => some fs : String → String → FS → Option FS) a b fs).isSome = true) ∧
    ∃ res st1,
      transform id (fun _ _ fs => some fs) exSt [.str "a.txt"] (.str "out") "" true =
        .ok (res, st1) ∧
      res.map Prod.snd = [PathArg.str "a.txt"].map (fun _ => true) ∧
      st1.checksums = exSt.checksums ∧ st1.cacheDisk = exSt.cacheDisk ∧
      st1.saveCount = exSt.saveCount :=
  ⟨fun _ _ _ => rfl,
   claim_C2 id (fun _ _ fs => some fs) exSt [.str "a.txt"] (.str "out") ""
     (fun _ _ _ => rfl)⟩

/-! ## Claim C9 (corrected) -/

/-- C9 counterexample: the cache key is not the path string exactly as
given — the spelling "./a.txt" is keyed as "a.txt", so it shares one entry
with the spelling "a.txt" instead of being an independent entry. -/
theorem claim_C9_counterexample :
    _get_cache_key (.str "./a.txt") ≠ "./a.txt" ∧
    _get_cache_key (.str "./a.txt") = _get_cache_key (.str "a.txt") := by
  decide

/-- A file system carrying the same content under a relative and an
absolute spelling. -/
def c9Fs : FS :=
  fun q => if q = "a.txt" then some "x"
    else if q = "/tmp/a.txt" then some "x" else none

/-- C9 as amended: the cache key is `str(Path(path))`, a purely syntactic
normalization (duplicate separators and single-dot components collapse)
with no resolution against a base directory; spellings equal after this
normalization share one entry (a second check through "./a.txt" reports
unchanged and adds no key), while spellings still different after it, such
as relative versus absolute, are tracked as two independent entries. -/
theorem claim_C9 :
    _get_cache_key (.str "./a.txt") = "a.txt" ∧
    _get_cache_key (.str "a//b.txt") = "a/b.txt" ∧
    _get_cache_key (.str "a.txt") = "a.txt" ∧
    _get_cache_key (.str "/tmp/a.txt") = "/tmp/a.txt" ∧
    _get_cache_key (.str "a.txt") ≠ _get_cache_key (.str "/tmp/a.txt") ∧
    (has_changed id (has_changed id (mkStore c9Fs none) (.str "a.txt")).2
        (.str "./a.txt")).1 = false ∧
    keysA (has_changed id (has_changed id (mkStore c9Fs none) (.str "a.txt")).2
        (.str "./a.txt")).2.checksums = ["a.txt"] ∧
    keysA (has_changed id (has_changed id (mkStore c9Fs none) (.str "a.txt")).2
        (.str "/tmp/a.txt")).2.checksums = ["a.txt", "/tmp/a.txt"] := by
  decide

/-! ## Claim C1 (aggregate mode, modelled from the spec) -/

/-- The aggregate scenario file system: two inputs "f1.txt" and "f2.txt". -/
def aggFs : FS :=
  fun q => if q = "f1.txt" then some "one"
    else if q = "f2.txt" then some "two" else none

def aggInputs : List PathArg := [.str "f1.txt", .str "f2.txt"]

/-- One aggregate run over the scenario inputs producing "agg.txt", with the
default (concatenating) aggregate transform and the identity digest. -/
def aggRun (st : St) : List (PurePosixPath × Bool) × St × Nat :=
  transform_aggregate id default_aggregate_transform st aggInputs
    (.str "agg.txt") false

def aggSt0 : St := mkStore aggFs none

def aggSt1 : St := (aggRun aggSt0).2.1

def aggSt2 : St := (aggRun aggSt1).2.1

/-- The state after the second run with the aggregate output deleted. -/
def aggSt2d : St := { aggSt2 with fs := aggSt2.fs.eraseFile "agg.txt" }

/-- C1: an aggregate transform runs exactly when force is set, or some input
changed over the full input list, or the output file is absent; the callable
runs exactly once when triggered and never otherwise, the outcome list is
always the single pair of the output path with the decision; concretely:
a fresh cache processes (true), an immediate rerun with unchanged inputs and
existing output skips (false), and a rerun after deleting only the output
processes again (true). -/
theorem claim_C1 :
    (∀ (hash : String → String) (tfAgg : List String → String → FS → FS)
       (st : St) (inputs : List PathArg) (out : PathArg) (force : Bool),
       (transform_aggregate hash tfAgg st inputs out force).1 =
         [(_normalize_path out,
            force || (has_changed_full hash st inputs).1 ||
              (st.fs (_normalize_path out).toStr).isNone)] ∧
       (transform_aggregate hash tfAgg st inputs out force).2.2 =
         (if force || (has_changed_full hash st inputs).1 ||
             (st.fs (_normalize_path out).toStr).isNone then 1 else 0)) ∧
    ((aggRun aggSt0).1 = [(PurePosixPath.parse "agg.txt", true)] ∧
     (aggRun aggSt0).2.2 = 1) ∧
    ((aggRun aggSt1).1 = [(PurePosixPath.parse "agg.txt", false)] ∧
     (aggRun aggSt1).2.2 = 0) ∧
    ((aggRun aggSt2d).1 = [(PurePosixPath.parse "agg.txt", true)] ∧
     (aggRun aggSt2d).2.2 = 1) := by
  refine ⟨?_, by decide, by decide, by decide⟩
  intro hash tfAgg st inputs out force
  cases force with
  | true => simp [transform_aggregate]
  | false =>
    simp only [transform_aggregate, Bool.false_or]
    cases hb : (has_changed_full hash st inputs).1 with
    | true => simp [hb]
    | false =>
      have hfs := has_changed_full_fs hash st inputs
      rw [hfs]
      cases hn : (st.fs (_normalize_path out).toStr).isNone with
      | true => simp [hb, hn]
      | false => simp [hb, hn]

/-! ## Claim C10 -/

/-- C10: in sequential per-file transform without force, a changed input has
its new digest recorded and persisted by the change check before the
callable runs; hence when the callable raises, the pipeline aborts with the
digest already stored and the cache file already written, the output was
never produced, and a subsequent transform of the same unchanged input
reports was_processed = false. -/
theorem claim_C10 (hash : String → String)
    (tf : String → String → FS → Option FS) (st : St) (p : PathArg)
    (rest : List PathArg) (folder : PathArg) (ext : String) (c : String)
    (hfs : st.fs (_get_cache_key p) = some c)
    (hch : lookupA (_get_cache_key p) st.checksums ≠ some (hash c))
    (htf : ∀ fsx, tf (_normalize_path p).toStr
        ((_normalize_path folder).join
          (output_filename (_normalize_path p) ext)).toStr fsx = none) :
    ∃ st1,
      transform hash tf st (p :: rest) folder ext false = .error st1 ∧
      lookupA (_get_cache_key p) st1.checksums = some (hash c) ∧
      st1.cacheDisk = some (dumpChecksums st1.checksums) ∧
      st1.fs = st.fs ∧
      ∀ tf2, transform hash tf2 st1 [p] folder ext false =
        .ok ([((_normalize_path folder).join
                (output_filename (_normalize_path p) ext), false)], st1) := by
  have h1 := has_changed_new_or_diff hash st (.path (_normalize_path p)) c hfs hch
  refine ⟨_save_cache
      { st with
        checksums := insertA (_get_cache_key (.path (_normalize_path p)))
          (hash c) st.checksums },
    ?_, lookupA_insertA_self _ _ _, rfl, rfl, ?_⟩
  · show transformGo hash tf (_normalize_path folder) ext false (p :: rest) st [] = _
    simp [transformGo, h1, htf]
  · intro tf2
    have h2 := has_changed_same hash
      (_save_cache
        { st with
          checksums := insertA (_get_cache_key (.path (_normalize_path p)))
            (hash c) st.checksums })
      (.path (_normalize_path p)) c hfs (lookupA_insertA_self _ _ _)
    show transformGo hash tf2 (_normalize_path folder) ext false [p] _ [] = _
    simp [transformGo, h2]

/-- A transform callable that always raises. -/
def c10Tf : String → String → FS → Option FS := fun _ _ _ => none

/-- Witness for C10: a fresh store, a changed input, and a callable that
raises. -/
theorem claim_C10_witness :
    exSt.fs (_get_cache_key (.str "a.txt")) = some "x" ∧
    lookupA (_get_cache_key (.str "a.txt")) exSt.checksums ≠ some (id "x") ∧
    (∀ fsx : FS, c10Tf (_normalize_path (.str "a.txt")).toStr
        ((_normalize_path (.str "out")).join
          (output_filename (_normalize_path (.str "a.txt")) ".out")).toStr fsx = none) ∧
    ∃ st1,
      transform id c10Tf exSt [.str "a.txt"] (.str "out") ".out" false = .error st1 ∧
      lookupA (_get_cache_key (.str "a.txt")) st1.checksums = some (id "x") ∧
      st1.cacheDisk = some (dumpChecksums st1.checksums) ∧
      st1.fs = exSt.fs ∧
      ∀ tf2, transform id tf2 st1 [.str "a.txt"] (.str "out") ".out" false =
        .ok ([((_normalize_path (.str "out")).join
                (output_filename (_normalize_path (.str "a.txt")) ".out"), false)], st1) :=
  ⟨by decide, by decide, fun _ => rfl,
   claim_C10 id c10Tf exSt (.str "a.txt") [] (.str "out") ".out" "x"
     (by decide) (by decide) (fun _ => rfl)⟩

end PyChecksum
